import Mathlib

/-!
Verification of the core components of the semantic-scholar MCP repository:
the retrying HTTP request executor and rate limiter
(`crates/semantic_scholar_mcp_tools/src/utils.rs`) and the embedded
similarity cache (`crates/local_cache/src/local_cache.rs`).

Modelling conventions:
* `f32` values are modelled as `ℚ`; `f32::sqrt` is modelled by `Rat.sqrt`.
* Timestamps and durations are abstract integer ticks (`Int`).
* The LMDB storage is an association list with unique keys; transactional
  failure points (open / put / delete / commit) are driven by explicit
  oracles, and an aborted transaction leaves the store unchanged.
* `Vec::sort_by` (a stable sort) is modelled by `List.insertionSort`
  (also stable), with the same descending comparator.
* The async HTTP transport is an oracle mapping the attempt number to the
  outcome observed by `make_request`.
-/

/-- JSON values, mirroring `serde_json::Value` (numbers restricted to
integers, which is all the callers construct). -/
inductive Json where
  | null
  | bool (b : Bool)
  | num (n : Int)
  | str (s : String)
  | arr (elems : List Json)
  | obj (fields : List (String × Json))

/-- Mirrors `serde_json::Value::as_str`: `Some` only on string values. -/
def Json.asStr : Json → Option String
  | .str s => some s
  | _ => none

/-- Renders a boolean the way Rust's `Display for bool` does. -/
def boolText (b : Bool) : String := if b then "true" else "false"

/-- Unreserved bytes that `urlencoding::encode` leaves as-is:
ASCII alphanumerics and `-`, `.`, `_`, `~`. -/
def isUnreservedByte (b : UInt8) : Bool :=
  (65 ≤ b.toNat && b.toNat ≤ 90) || (97 ≤ b.toNat && b.toNat ≤ 122) ||
  (48 ≤ b.toNat && b.toNat ≤ 57) ||
  b.toNat == 45 || b.toNat == 46 || b.toNat == 95 || b.toNat == 126

/-- Uppercase hexadecimal digit for a value below 16. -/
def hexDigit (n : Nat) : Char :=
  if n < 10 then Char.ofNat (48 + n) else Char.ofNat (55 + n)

/-- Percent-encoding of a single byte, as `urlencoding::encode` does it. -/
def encodeByte (b : UInt8) : String :=
  if isUnreservedByte b then String.singleton (Char.ofNat b.toNat)
  else
    "%" ++ String.singleton (hexDigit (b.toNat / 16)) ++
      String.singleton (hexDigit (b.toNat % 16))

/-- Models `urlencoding::encode`: percent-encode every UTF-8 byte that is
not unreserved. -/
def urlencode (s : String) : String :=
  String.join ((s.data.flatMap String.utf8EncodeChar).map encodeByte)

/-- Models one iteration of the `for (key, value) in obj` loop body of
`build_query_string`: the query-string part pushed for this key, or `none`
when the match falls through to `_ => {}`. -/
def queryPart (key : String) (v : Json) : Option String :=
  match v with
  | .str s => some (key ++ "=" ++ urlencode s)
  | .num n => some (key ++ "=" ++ toString n)
  | .bool b => some (key ++ "=" ++ boolText b)
  | .arr elems =>
      some (key ++ "=" ++
        urlencode (String.intercalate "," (elems.filterMap Json.asStr)))
  | _ => none

/-- Models `build_query_string` from
`crates/semantic_scholar_mcp_tools/src/utils.rs`: iterate the object's
entries, push a rendered part per supported value kind, join with `&`.
A non-object parameter document yields the empty query string. -/
def build_query_string (params : Json) : String :=
  match params with
  | .obj fields =>
      String.intercalate "&" (fields.filterMap (fun p => queryPart p.1 p.2))
  | _ => ""

/-- Modelled from the spec wording of claim C9: the literal textual form of
a scalar JSON value ("string values ...; numeric and boolean values are
rendered via their literal textual form"). -/
def jsonLiteralText : Json → String
  | .str s => s
  | .num n => toString n
  | .bool b => boolText b
  | _ => ""

/-- Modelled from the spec wording of claim C9: "array values are joined
with commas into one string and then percent-encoded as a unit" — every
element of the array is rendered and joined, not only the string ones. -/
def queryPartClaimC9 (key : String) (v : Json) : Option String :=
  match v with
  | .str s => some (key ++ "=" ++ urlencode s)
  | .num n => some (key ++ "=" ++ toString n)
  | .bool b => some (key ++ "=" ++ boolText b)
  | .arr elems =>
      some (key ++ "=" ++
        urlencode (String.intercalate "," (elems.map jsonLiteralText)))
  | _ => none

/-- Modelled from the spec wording of claim C9: the whole query string as
the claim describes it. -/
def buildQueryStringClaimC9 (params : Json) : String :=
  match params with
  | .obj fields =>
      String.intercalate "&"
        (fields.filterMap (fun p => queryPartClaimC9 p.1 p.2))
  | _ => ""

/-- Spec reading of the amended C9 (array clause restricted to string
elements, written independently of the source shape): each field
contributes a part through `queryPartClaimC9` on scalars, while arrays
keep only their string elements before joining. -/
def queryPartAmendedC9 (key : String) (v : Json) : Option String :=
  match v with
  | .arr elems =>
      some (key ++ "=" ++
        urlencode (String.intercalate ","
          (elems.filterMap (fun e => Json.asStr e))))
  | .null => none
  | .obj _ => none
  | other => queryPartClaimC9 key other

/-- Spec reading of the amended C9, assembled field by field by explicit
recursion rather than `filterMap`. -/
def amendedQueryParts : List (String × Json) → List String
  | [] => []
  | (k, v) :: rest =>
      match queryPartAmendedC9 k v with
      | some part => part :: amendedQueryParts rest
      | none => amendedQueryParts rest

/-- Spec reading of the amended C9 for a whole parameter document. -/
def buildQueryStringAmendedC9 (params : Json) : String :=
  match params with
  | .obj fields => String.intercalate "&" (amendedQueryParts fields)
  | _ => ""

/-- Outcome of issuing one HTTP attempt in `make_request`: either the
transport delivered a response (with its status code, and `parsed` telling
whether a success body parses as JSON, with the parsed payload abstracted
to a `Nat`), or the transport itself failed. -/
inductive HttpOutcome where
  | response (status : Nat) (parsed : Option Nat)
  | transportError
deriving DecidableEq

/-- Terminal results of `make_request`, one per `return` site. -/
inductive ReqResult where
  | okBody (b : Nat)
  | parseError
  | rateLimitExceeded
  | notFound
  | httpError (status : Nat)
  | requestFailedAfterRetries
  | fuelExhausted
deriving DecidableEq

/-- Observable trace of one `make_request` call: the returned value, the
backoff delays slept (in milliseconds, in order), and how many HTTP
attempts were issued. -/
structure ReqTrace where
  result : ReqResult
  delays : List Nat
  attemptsMade : Nat
deriving DecidableEq

/-- Mirrors `http::StatusCode::is_success`: 2xx statuses. -/
def statusIsSuccess (s : Nat) : Bool := 200 ≤ s && s < 300

/-- Mirrors the retry condition `status == 429 || status == 503 || status == 502`. -/
def isRetryableStatus (s : Nat) : Bool := s == 429 || s == 503 || s == 502

/-- The `let max_retries = 5` of `make_request`. -/
def max_retries : Nat := 5

/-- Body of one iteration of the `loop` in `make_request`. `attempts` holds
the counter value before the `attempts += 1` at the top of the iteration;
`recur` continues the loop with the incremented counter and doubled delay. -/
def requestIter (respond : Nat → HttpOutcome)
    (recur : Nat → Nat → List Nat → ReqTrace)
    (attempts retryDelay : Nat) (delays : List Nat) : ReqTrace :=
  let a := attempts + 1
  match respond a with
  | .response status parsed =>
      if statusIsSuccess status then
        match parsed with
        | some b => ⟨.okBody b, delays.reverse, a⟩
        | none => ⟨.parseError, delays.reverse, a⟩
      else if isRetryableStatus status then
        if a ≤ max_retries then
          recur a (retryDelay * 2) (retryDelay :: delays)
        else ⟨.rateLimitExceeded, delays.reverse, a⟩
      else if status == 404 then ⟨.notFound, delays.reverse, a⟩
      else ⟨.httpError status, delays.reverse, a⟩
  | .transportError =>
      if a ≤ max_retries then
        recur a (retryDelay * 2) (retryDelay :: delays)
      else ⟨.requestFailedAfterRetries, delays.reverse, a⟩

/-- The `loop` of `make_request`, with structural fuel. The loop body only
recurses while the incremented counter stays at most `max_retries`, so
fuel `max_retries + 1` is never exhausted when starting from 0 attempts. -/
def requestLoop (respond : Nat → HttpOutcome) :
    Nat → Nat → Nat → List Nat → ReqTrace
  | 0, attempts, _, delays => ⟨.fuelExhausted, delays.reverse, attempts⟩
  | fuel + 1, attempts, retryDelay, delays =>
      requestIter respond (requestLoop respond fuel) attempts retryDelay delays

/-- Models `make_request` from
`crates/semantic_scholar_mcp_tools/src/utils.rs`: `max_retries = 5`,
initial `retry_delay` 100 ms, counter starting at 0. -/
def make_request (respond : Nat → HttpOutcome) : ReqTrace :=
  requestLoop respond 6 0 100 []

/-- Outcomes that the `make_request` loop retries: a transport-level error,
or a response whose status is 429, 503 or 502. -/
def retryableOutcome : HttpOutcome → Prop
  | .transportError => True
  | .response s _ => isRetryableStatus s = true

/-- The minimum inter-call interval (in milliseconds) that
`RateLimiter::acquire` enforces for an endpoint. In the source this is the
local `let rate_limit = Duration::from_secs(1)`, computed without looking
at the endpoint at all. -/
def rateLimitMs (_endpoint : String) : Int := 1000

/-- State of the rate limiter: the `last_call_time` map from endpoint to
the instant recorded at the end of its last `acquire`. -/
abbrev RLMap := List (String × Int)

/-- Insertion into the `last_call_time` map (`HashMap::insert`). -/
def rlInsert (m : RLMap) (endpoint : String) (t : Int) : RLMap :=
  (endpoint, t) :: m.filter (fun p => p.1 ≠ endpoint)

/-- Models `RateLimiter::acquire` under an explicit clock: `now` is the
instant the call starts (the lock is already held, so the whole body is
atomic). Returns the updated map and the completion instant, which is also
the timestamp recorded by the trailing `Instant::now()` after the
`Delay::new(sleep_time)`. `Instant::elapsed` cannot be negative, hence the
`max _ 0`. -/
def acquire (m : RLMap) (endpoint : String) (now : Int) : RLMap × Int :=
  let rate_limit := rateLimitMs endpoint
  let finish :=
    match m.lookup endpoint with
    | some last =>
        let elapsed := max (now - last) 0
        if elapsed < rate_limit then now + (rate_limit - elapsed) else now
    | none => now
  (rlInsert m endpoint finish, finish)

/-- The `Query` record from `crates/cache/src/cache.rs`, with `f32`
components as `ℚ`. -/
structure Query where
  action : String
  text : String
  params : Option Json
  embedding : List ℚ
  results : Json

/-- The `CacheEntry<Query>` record, with `created_at` an integer tick. -/
structure CacheEntryQ where
  value : Query
  created_at : Int

/-- The LMDB "cache" database: an association list from string key to
entry, iterated in list order. -/
abbrev Store := List (String × CacheEntryQ)

/-- Value at a key (`Database::get`-style view used in the theorems). -/
def findEntry : Store → String → Option CacheEntryQ
  | [], _ => none
  | p :: rest, k => if p.1 == k then some p.2 else findEntry rest k

/-- Models `Database::put`: overwrite the value at the key when present,
otherwise add the key. -/
def putEntry (s : Store) (k : String) (e : CacheEntryQ) : Store :=
  if s.any (fun p => p.1 == k) then
    s.map (fun p => if p.1 == k then (k, e) else p)
  else s ++ [(k, e)]

/-- No key occurs twice in the store. -/
def UniqueKeys (s : Store) : Prop := (s.map Prod.fst).Nodup

/-- Every entry is stored under its query's `text` (established by `store`,
which uses `query.text.clone()` as the key). -/
def KeyIsText (s : Store) : Prop :=
  ∀ p ∈ s, (fun q : String × CacheEntryQ => q.2.value.text) p = p.1

/-- Failure oracle for the write transaction of `store`: whether
`env.write_txn()`, `storage.put` and `wtxn.commit()` succeed. -/
structure WriteOracle where
  txnOk : Bool
  putOk : Bool
  commitOk : Bool

/-- Models `LocalCache::store` from `crates/local_cache/src/local_cache.rs`
under an explicit clock and failure oracle: build the entry with
`created_at = now`, put it under `query.text`, commit. Any failing step
propagates the error, and the aborted transaction leaves the store
unchanged. Returns the call's result and the post-call store. -/
def LocalCache.store (s : Store) (o : WriteOracle) (now : Int) (query : Query) :
    Except Unit Unit × Store :=
  if !o.txnOk then (.error (), s)
  else if !o.putOk then (.error (), s)
  else if !o.commitOk then (.error (), s)
  else (.ok (), putEntry s query.text ⟨query, now⟩)

/-- Dot product and both squared magnitudes, accumulated over the zipped
prefix of the two embeddings exactly as the
`for (a, b) in query_embedding.iter().zip(embedding.iter())` loop does. -/
def dotMags (qe emb : List ℚ) : ℚ × ℚ × ℚ :=
  (qe.zip emb).foldl
    (fun acc p => (acc.1 + p.1 * p.2, acc.2.1 + p.1 * p.1, acc.2.2 + p.2 * p.2))
    (0, 0, 0)

/-- Per-entry step of the `search_similarity` scan: `none` on the TTL purge
branch and on the zero-magnitude guard, `some` with the cosine similarity
pair otherwise. -/
def scanEntry (emb : List ℚ) (e : CacheEntryQ) :
    Option (Query × ℚ) :=
  let acc := dotMags e.value.embedding emb
  let query_magnitude := Rat.sqrt acc.2.1
  let embedding_magnitude := Rat.sqrt acc.2.2
  if query_magnitude > 0 ∧ embedding_magnitude > 0 then
    some (e.value, acc.1 / (query_magnitude * embedding_magnitude))
  else none

/-- The read-transaction scan of `search_similarity`: one pass over the
store, in iteration order, producing the collected `(Query, similarity)`
pairs and the purge list. -/
def scanStore (ttl now : Int) (emb : List ℚ) : Store → List (Query × ℚ) × List String
  | [] => ([], [])
  | p :: rest =>
      let tail := scanStore ttl now emb rest
      if now - p.2.created_at > ttl then (tail.1, p.1 :: tail.2)
      else
        match scanEntry emb p.2 with
        | some r => (r :: tail.1, tail.2)
        | none => tail

/-- Descending-similarity order used by the `sort_by` comparator
`b.1.partial_cmp(&a.1).unwrap_or(Equal)`. -/
def simGE (a b : Query × ℚ) : Prop := b.2 ≤ a.2

instance : DecidableRel simGE := fun a b => inferInstanceAs (Decidable (b.2 ≤ a.2))

instance : IsTotal (Query × ℚ) simGE := ⟨fun a b => le_total b.2 a.2⟩

instance : IsTrans (Query × ℚ) simGE := ⟨fun _ _ _ hab hbc => le_trans hbc hab⟩

/-- Failure oracle for the purge write transaction of `search_similarity`. -/
structure PurgeOracle where
  txnOk : Bool
  deleteOk : String → Bool
  commitOk : Bool

/-- An oracle on which every storage operation succeeds. -/
def allOk : PurgeOracle := ⟨true, fun _ => true, true⟩

/-- Outcome of a `search_similarity` call: the returned value, the
post-call store, and whether the purge write transaction was entered. -/
structure SearchOutcome where
  result : Except Unit (List (Query × ℚ))
  state : Store
  purgeTxnOpened : Bool

/-- Models `LocalCache::search_similarity` from
`crates/local_cache/src/local_cache.rs` under an explicit clock and purge
oracle: scan every entry inside the read transaction (collecting live
nonzero-magnitude results and the expired keys), sort the results by
descending similarity, then — only if the purge list is non-empty — open a
separate write transaction, delete the expired keys and commit. A failing
purge step propagates its error and the aborted transaction leaves the
store unchanged. -/
def LocalCache.search_similarity (s : Store) (ttl : Int) (now : Int)
    (emb : List ℚ) (o : PurgeOracle) : SearchOutcome :=
  let scanned := scanStore ttl now emb s
  let results := List.insertionSort simGE scanned.1
  let keys_to_purge := scanned.2
  if keys_to_purge.isEmpty then ⟨.ok results, s, false⟩
  else if !o.txnOk then ⟨.error (), s, true⟩
  else if keys_to_purge.any (fun k => !o.deleteOk k) then ⟨.error (), s, true⟩
  else if !o.commitOk then ⟨.error (), s, true⟩
  else ⟨.ok results, s.filter (fun p => !keys_to_purge.contains p.1), true⟩

/-- The list `search_similarity` returns on success: the scan's collected
pairs sorted by descending similarity. -/
def searchResults (s : Store) (ttl now : Int) (emb : List ℚ) : List (Query × ℚ) :=
  List.insertionSort simGE (scanStore ttl now emb s).1

/-- Cosine similarity as the spec's glossary defines it, over the compared
(zipped) prefix: dot product normalized by the product of magnitudes. -/
def cosineSim (a b : List ℚ) : ℚ :=
  ((a.zip b).map (fun p => p.1 * p.2)).sum /
    (Rat.sqrt ((a.zip b).map (fun p => p.1 * p.1)).sum *
      Rat.sqrt ((a.zip b).map (fun p => p.2 * p.2)).sum)

theorem ratSqrt_pos {q : ℚ} (h : 0 < q) : 0 < Rat.sqrt q := by
  unfold Rat.sqrt
  rw [Rat.mkRat_eq_div]
  apply div_pos
  · rw [Int.cast_pos]
    unfold Int.sqrt
    have hn : 0 < q.num := Rat.num_pos.mpr h
    have hn' : 0 < q.num.toNat := by omega
    exact_mod_cast Nat.sqrt_pos.mpr hn'
  · rw [Nat.cast_pos]
    exact Nat.sqrt_pos.mpr q.pos

theorem ratSqrt_zero : Rat.sqrt 0 = 0 := by
  unfold Rat.sqrt
  norm_num [Int.sqrt]

theorem ratSqrt_one : Rat.sqrt 1 = 1 := by
  unfold Rat.sqrt
  norm_num [Int.sqrt]

theorem dotMags_foldl (l : List (ℚ × ℚ)) (a b c : ℚ) :
    l.foldl (fun acc p => (acc.1 + p.1 * p.2, acc.2.1 + p.1 * p.1, acc.2.2 + p.2 * p.2)) (a, b, c) =
      (a + (l.map (fun p => p.1 * p.2)).sum,
        b + (l.map (fun p => p.1 * p.1)).sum,
        c + (l.map (fun p => p.2 * p.2)).sum) := by
  induction l generalizing a b c with
  | nil => simp
  | cons h t ih =>
      simp only [List.foldl_cons, List.map_cons, List.sum_cons, ih, Prod.mk.injEq]
      refine ⟨by ring, by ring, by ring⟩

theorem dotMags_spec (qe emb : List ℚ) :
    dotMags qe emb =
      (((qe.zip emb).map (fun p => p.1 * p.2)).sum,
        ((qe.zip emb).map (fun p => p.1 * p.1)).sum,
        ((qe.zip emb).map (fun p => p.2 * p.2)).sum) := by
  simpa using dotMags_foldl (qe.zip emb) 0 0 0

theorem sumSqFst_nonneg (l : List (ℚ × ℚ)) : 0 ≤ (l.map (fun p => p.1 * p.1)).sum := by
  apply List.sum_nonneg
  intro x hx
  simp only [List.mem_map] at hx
  obtain ⟨p, _, rfl⟩ := hx
  exact mul_self_nonneg _

theorem sumSqSnd_nonneg (l : List (ℚ × ℚ)) : 0 ≤ (l.map (fun p => p.2 * p.2)).sum := by
  apply List.sum_nonneg
  intro x hx
  simp only [List.mem_map] at hx
  obtain ⟨p, _, rfl⟩ := hx
  exact mul_self_nonneg _

theorem retryable_not_success {s : Nat} (h : isRetryableStatus s = true) :
    statusIsSuccess s = false := by
  simp only [isRetryableStatus, Bool.or_eq_true, beq_iff_eq] at h
  rcases h with (h | h) | h <;> subst h <;> decide

theorem requestLoop_succ (respond : Nat → HttpOutcome) (fuel attempts retryDelay : Nat)
    (delays : List Nat) :
    requestLoop respond (fuel + 1) attempts retryDelay delays =
      requestIter respond (requestLoop respond fuel) attempts retryDelay delays := rfl

theorem requestIter_retryable (respond : Nat → HttpOutcome)
    (recur : Nat → Nat → List Nat → ReqTrace) (attempts retryDelay : Nat)
    (delays : List Nat) (h : retryableOutcome (respond (attempts + 1)))
    (ha : attempts + 1 ≤ max_retries) :
    requestIter respond recur attempts retryDelay delays =
      recur (attempts + 1) (retryDelay * 2) (retryDelay :: delays) := by
  unfold requestIter
  cases hr : respond (attempts + 1) with
  | response s p =>
      rw [hr] at h
      have h' : isRetryableStatus s = true := h
      have hs : statusIsSuccess s = false := retryable_not_success h'
      simp [hr, hs, h', ha]
  | transportError => simp [hr, ha]

theorem requestIter_retry_exhausted (respond : Nat → HttpOutcome)
    (recur : Nat → Nat → List Nat → ReqTrace) (attempts retryDelay : Nat)
    (delays : List Nat) (h : retryableOutcome (respond (attempts + 1)))
    (ha : ¬ (attempts + 1 ≤ max_retries)) :
    (requestIter respond recur attempts retryDelay delays).delays = delays.reverse ∧
    (requestIter respond recur attempts retryDelay delays).attemptsMade = attempts + 1 ∧
    ((requestIter respond recur attempts retryDelay delays).result = .rateLimitExceeded ∨
      (requestIter respond recur attempts retryDelay delays).result = .requestFailedAfterRetries) := by
  unfold requestIter
  cases hr : respond (attempts + 1) with
  | response s p =>
      rw [hr] at h
      have h' : isRetryableStatus s = true := h
      have hs : statusIsSuccess s = false := retryable_not_success h'
      simp [hr, hs, h', ha]
  | transportError => simp [hr, ha]

/-- C1: every transport-level failure or 429/502/503 response is retried,
up to 5 additional attempts beyond the first, sleeping an exponential
backoff that starts at 100 ms and doubles after every retry; when the
budget is exhausted a terminal error is returned instead of a further
retry. Concretely: an oracle failing retryably on every attempt yields 6
issued attempts (1 initial + 5 retries), the backoff trace
[100, 200, 400, 800, 1600] and a terminal retry error; an oracle failing
with 503 on attempts 1 and 2 and succeeding on attempt 3 returns the
parsed body after sleeping 100 ms and 200 ms. -/
theorem make_request_retry_backoff_policy
    (respond respond2 : Nat → HttpOutcome) (b : Nat)
    (hfail : ∀ a, 1 ≤ a → a ≤ 6 → retryableOutcome (respond a))
    (h1 : respond2 1 = .response 503 none)
    (h2 : respond2 2 = .response 503 none)
    (h3 : respond2 3 = .response 200 (some b)) :
    ((make_request respond).delays = [100, 200, 400, 800, 1600] ∧
      (make_request respond).attemptsMade = 6 ∧
      ((make_request respond).result = .rateLimitExceeded ∨
        (make_request respond).result = .requestFailedAfterRetries)) ∧
    make_request respond2 = ⟨.okBody b, [100, 200], 3⟩ := by
  constructor
  · simp only [make_request]
    rw [show (6 : Nat) = 5 + 1 from rfl, requestLoop_succ,
      requestIter_retryable respond _ 0 100 [] (hfail 1 (by decide) (by decide)) (by decide)]
    simp only [Nat.reduceAdd, Nat.reduceMul]
    rw [show (5 : Nat) = 4 + 1 from rfl, requestLoop_succ,
      requestIter_retryable respond _ 1 200 [100] (hfail 2 (by decide) (by decide)) (by decide)]
    simp only [Nat.reduceAdd, Nat.reduceMul]
    rw [show (4 : Nat) = 3 + 1 from rfl, requestLoop_succ,
      requestIter_retryable respond _ 2 400 [200, 100] (hfail 3 (by decide) (by decide)) (by decide)]
    simp only [Nat.reduceAdd, Nat.reduceMul]
    rw [show (3 : Nat) = 2 + 1 from rfl, requestLoop_succ,
      requestIter_retryable respond _ 3 800 [400, 200, 100] (hfail 4 (by decide) (by decide)) (by decide)]
    simp only [Nat.reduceAdd, Nat.reduceMul]
    rw [show (2 : Nat) = 1 + 1 from rfl, requestLoop_succ,
      requestIter_retryable respond _ 4 1600 [800, 400, 200, 100] (hfail 5 (by decide) (by decide)) (by decide)]
    simp only [Nat.reduceAdd, Nat.reduceMul]
    rw [show (1 : Nat) = 0 + 1 from rfl, requestLoop_succ]
    have hx := requestIter_retry_exhausted respond (requestLoop respond 0) 5 3200
      [1600, 800, 400, 200, 100] (hfail 6 (by decide) (by decide)) (by decide)
    simpa using hx
  · simp only [make_request]
    rw [show (6 : Nat) = 5 + 1 from rfl, requestLoop_succ,
      requestIter_retryable respond2 _ 0 100 []
        (by show retryableOutcome (respond2 1); rw [h1]; exact (by decide : isRetryableStatus 503 = true))
        (by decide)]
    simp only [Nat.reduceAdd, Nat.reduceMul]
    rw [show (5 : Nat) = 4 + 1 from rfl, requestLoop_succ,
      requestIter_retryable respond2 _ 1 200 [100]
        (by show retryableOutcome (respond2 2); rw [h2]; exact (by decide : isRetryableStatus 503 = true))
        (by decide)]
    simp only [Nat.reduceAdd, Nat.reduceMul]
    rw [show (4 : Nat) = 3 + 1 from rfl, requestLoop_succ]
    unfold requestIter
    have h3' : respond2 (2 + 1) = .response 200 (some b) := by simpa using h3
    simp [h3', statusIsSuccess]

/-- Closed instance of `make_request_retry_backoff_policy`: an oracle that
always fails at the transport level, and an oracle that returns 503 twice
then succeeds with body 7. -/
theorem make_request_retry_backoff_policy_witness :
    ((make_request (fun _ => .transportError)).delays = [100, 200, 400, 800, 1600] ∧
      (make_request (fun _ => .transportError)).attemptsMade = 6 ∧
      ((make_request (fun _ => .transportError)).result = .rateLimitExceeded ∨
        (make_request (fun _ => .transportError)).result = .requestFailedAfterRetries)) ∧
    make_request (fun a => if a = 3 then .response 200 (some 7) else .response 503 none) =
      ⟨.okBody 7, [100, 200], 3⟩ :=
  make_request_retry_backoff_policy _ _ 7 (fun _ _ _ => True.intro) rfl rfl rfl

/-- C8: a 404 response is returned as a not-found error on the same
attempt, with zero retries and no backoff sleep. -/
theorem make_request_404_no_retry (respond : Nat → HttpOutcome) (p : Option Nat)
    (h : respond 1 = .response 404 p) :
    make_request respond = ⟨.notFound, [], 1⟩ := by
  simp only [make_request]
  rw [show (6 : Nat) = 5 + 1 from rfl, requestLoop_succ]
  unfold requestIter
  have h' : respond (0 + 1) = .response 404 p := by simpa using h
  simp [h', statusIsSuccess, isRetryableStatus]

/-- Closed instance of `make_request_404_no_retry`. -/
theorem make_request_404_no_retry_witness :
    make_request (fun _ => .response 404 none) = ⟨.notFound, [], 1⟩ :=
  make_request_404_no_retry _ none rfl

theorem rlInsert_lookup_self (m : RLMap) (ep : String) (t : Int) :
    (rlInsert m ep t).lookup ep = some t := by
  simp [rlInsert, List.lookup]

theorem acquire_gap (m : RLMap) (ep : String) (f1 now2 : Int)
    (hl : m.lookup ep = some f1) (h : f1 ≤ now2) :
    (acquire m ep now2).2 - f1 ≥ rateLimitMs ep := by
  have hm : max (now2 - f1) 0 = now2 - f1 := max_eq_left (by omega)
  simp only [acquire, hl, hm, rateLimitMs]
  split
  · show now2 + (1000 - (now2 - f1)) - f1 ≥ 1000
    omega
  · omega

/-- C4 counterexample: the rate limiter computes the same fixed interval
for every endpoint; a search-style endpoint is not throttled more
conservatively than a simple lookup endpoint. -/
theorem rate_limiter_no_endpoint_classes_cex :
    ¬ (rateLimitMs "/paper/search" >
        rateLimitMs "/paper/649def34f8be52c8b66281af98ae884c09aef38b") := by
  decide

/-- C4 (amended): `acquire` enforces one fixed minimum inter-call interval
of 1000 ms for every endpoint — the endpoint does not select a longer
interval — and two consecutive acquires of the same endpoint (the second
starting no earlier than the first completed) complete at least that
interval apart. -/
theorem acquire_fixed_interval_min_gap (m : RLMap) (ep : String) (now1 now2 : Int)
    (h : (acquire m ep now1).2 ≤ now2) :
    rateLimitMs ep = 1000 ∧
    (acquire (acquire m ep now1).1 ep now2).2 - (acquire m ep now1).2 ≥
      rateLimitMs ep := by
  refine ⟨rfl, ?_⟩
  apply acquire_gap
  · show (rlInsert m ep (acquire m ep now1).2).lookup ep = some (acquire m ep now1).2
    exact rlInsert_lookup_self m ep _
  · exact h

/-- Closed instance of `acquire_fixed_interval_min_gap` on a fresh limiter
and the `/paper/search` endpoint, both calls starting at instant 0. -/
theorem acquire_fixed_interval_min_gap_witness :
    rateLimitMs "/paper/search" = 1000 ∧
    (acquire (acquire [] "/paper/search" 0).1 "/paper/search" 0).2 -
        (acquire [] "/paper/search" 0).2 ≥ rateLimitMs "/paper/search" :=
  acquire_fixed_interval_min_gap [] "/paper/search" 0 0 (by decide)

/-- C9 counterexample: for the parameter document `{"a": [true]}` the code
drops the non-string array element and renders `a=`, while the claim's
reading — every array value rendered via its literal textual form, joined
with commas and percent-encoded as a unit — renders `a=true`. -/
theorem build_query_string_array_cex :
    build_query_string (.obj [("a", .arr [.bool true])]) = "a=" ∧
    buildQueryStringClaimC9 (.obj [("a", .arr [.bool true])]) = "a=true" ∧
    build_query_string (.obj [("a", .arr [.bool true])]) ≠
      buildQueryStringClaimC9 (.obj [("a", .arr [.bool true])]) := by
  refine ⟨?_, ?_, ?_⟩ <;> decide

theorem queryPartAmendedC9_eq (k : String) (v : Json) :
    queryPartAmendedC9 k v = queryPart k v := by
  cases v <;> rfl

/-- C9 (amended): the query string is built by iterating the parameter
document's entries — string values percent-encoded, numeric and boolean
values rendered via their literal textual form, arrays joined with commas
and percent-encoded as a unit but keeping only their string elements
(non-string array elements are silently dropped), and any other value
kind (null, nested object) silently omitted — as captured by the
independently assembled `buildQueryStringAmendedC9`. -/
theorem build_query_string_amended (params : Json) :
    build_query_string params = buildQueryStringAmendedC9 params := by
  cases params with
  | obj fields =>
      simp only [build_query_string, buildQueryStringAmendedC9]
      congr 1
      induction fields with
      | nil => rfl
      | cons p rest ih =>
          obtain ⟨k, v⟩ := p
          simp only [List.filterMap_cons, amendedQueryParts, queryPartAmendedC9_eq]
          cases hq : queryPart k v with
          | none => simpa [hq] using ih
          | some part => simp [hq, ih]
  | null => rfl
  | bool b => rfl
  | num n => rfl
  | str s => rfl
  | arr elems => rfl

theorem findEntry_map_put (s : Store) (kp k : String) (e : CacheEntryQ) (h : k ≠ kp) :
    findEntry (s.map (fun p => if p.1 == kp then (kp, e) else p)) k = findEntry s k := by
  induction s with
  | nil => rfl
  | cons p rest ih =>
      have hkp : (kp == k) = false := beq_eq_false_iff_ne.mpr (Ne.symm h)
      by_cases hp : p.1 = kp
      · have h1 : (p.1 == kp) = true := beq_iff_eq.mpr hp
        have h2 : (p.1 == k) = false := by rw [hp]; exact hkp
        simp only [List.map_cons, h1, if_true, findEntry, hkp, Bool.false_eq_true,
          if_false, h2]
        exact ih
      · have h1 : (p.1 == kp) = false := beq_eq_false_iff_ne.mpr hp
        simp only [List.map_cons, h1, Bool.false_eq_true, if_false, findEntry]
        cases hpk : (p.1 == k)
        · simp only [Bool.false_eq_true, if_false]; exact ih
        · simp only [if_true]

theorem findEntry_append_of_ne (s : Store) (kp k : String) (e : CacheEntryQ) (h : k ≠ kp) :
    findEntry (s ++ [(kp, e)]) k = findEntry s k := by
  induction s with
  | nil =>
      simp only [List.nil_append, findEntry, beq_eq_false_iff_ne.mpr (Ne.symm h),
        Bool.false_eq_true, if_false]
  | cons p rest ih =>
      simp only [List.cons_append, findEntry]
      cases hpk : (p.1 == k)
      · simp only [Bool.false_eq_true, if_false]; exact ih
      · simp only [if_true]

theorem findEntry_putEntry_ne (s : Store) (kp k : String) (e : CacheEntryQ) (h : k ≠ kp) :
    findEntry (putEntry s kp e) k = findEntry s k := by
  unfold putEntry
  split
  · exact findEntry_map_put s kp k e h
  · exact findEntry_append_of_ne s kp k e h

/-- C10: `store` modifies at most the entry keyed by `query.text`: every
other key maps to the same entry (value and `created_at` alike) before and
after the call, whether the call succeeds or fails at any transactional
step. -/
theorem store_frame_other_keys (s : Store) (o : WriteOracle) (now : Int) (q : Query)
    (k : String) (h : k ≠ q.text) :
    findEntry (LocalCache.store s o now q).2 k = findEntry s k := by
  obtain ⟨t, pu, c⟩ := o
  cases t <;> cases pu <;> cases c <;> simp only [LocalCache.store, Bool.not_true,
    Bool.not_false, if_true, if_false] <;> try rfl
  exact findEntry_putEntry_ne s q.text k ⟨q, now⟩ h

/-- Closed instance of `store_frame_other_keys`: storing into an empty
store does not create an entry under a different key, on a fully
successful transaction. -/
theorem store_frame_other_keys_witness :
    findEntry (LocalCache.store [] ⟨true, true, true⟩ 0
        ⟨"paper_search", "q", none, [1], .null⟩).2 "other" = findEntry [] "other" :=
  store_frame_other_keys [] ⟨true, true, true⟩ 0 _ "other" (by decide)

theorem keys_map_put (s : Store) (kp : String) (e : CacheEntryQ) :
    (s.map (fun p => if p.1 == kp then (kp, e) else p)).map Prod.fst =
      s.map Prod.fst := by
  induction s with
  | nil => rfl
  | cons p rest ih =>
      by_cases hp : p.1 = kp
      · simp only [List.map_cons, beq_iff_eq.mpr hp, if_true, ih, List.cons.injEq]
        exact ⟨hp.symm, trivial⟩
      · simp only [List.map_cons, beq_eq_false_iff_ne.mpr hp, Bool.false_eq_true,
          if_false, ih]

theorem uniqueKeys_putEntry (s : Store) (kp : String) (e : CacheEntryQ)
    (hu : UniqueKeys s) : UniqueKeys (putEntry s kp e) := by
  unfold putEntry
  split
  · unfold UniqueKeys
    rw [keys_map_put]
    exact hu
  · rename_i hany
    have hnotin : kp ∉ s.map Prod.fst := by
      intro hmem
      obtain ⟨p, hp, hpk⟩ := List.mem_map.mp hmem
      exact hany (List.any_eq_true.mpr ⟨p, hp, beq_iff_eq.mpr hpk⟩)
    unfold UniqueKeys
    rw [List.map_append]
    refine List.nodup_append.mpr ⟨hu, List.nodup_singleton _, ?_⟩
    intro a ha hb
    simp only [List.map_cons, List.map_nil, List.mem_singleton] at hb
    subst hb
    exact hnotin ha

theorem keyIsText_putEntry (s : Store) (e : CacheEntryQ) (ht : KeyIsText s) :
    KeyIsText (putEntry s e.value.text e) := by
  intro p hp
  unfold putEntry at hp
  split at hp
  · obtain ⟨p', hp', rfl⟩ := List.mem_map.mp hp
    by_cases hc : p'.1 = e.value.text
    · simp only [beq_iff_eq.mpr hc, if_true]
    · simp only [beq_eq_false_iff_ne.mpr hc, Bool.false_eq_true, if_false]
      exact ht p' hp'
  · rcases List.mem_append.mp hp with hmem | hmem
    · exact ht p hmem
    · simp only [List.mem_singleton] at hmem
      subst hmem
      rfl

theorem findEntry_map_put_self (s : Store) (kp : String) (e : CacheEntryQ)
    (hany : s.any (fun p => p.1 == kp) = true) :
    findEntry (s.map (fun p => if p.1 == kp then (kp, e) else p)) kp = some e := by
  induction s with
  | nil => simp at hany
  | cons p rest ih =>
      by_cases hp : p.1 = kp
      · simp only [List.map_cons, beq_iff_eq.mpr hp, if_true, findEntry,
          beq_self_eq_true]
      · have hb : (p.1 == kp) = false := beq_eq_false_iff_ne.mpr hp
        have hany' : rest.any (fun p => p.1 == kp) = true := by
          rcases List.any_eq_true.mp hany with ⟨x, hx, hxk⟩
          rcases List.mem_cons.mp hx with rfl | hx'
          · rw [hb] at hxk; cases hxk
          · exact List.any_eq_true.mpr ⟨x, hx', hxk⟩
        simp only [List.map_cons, hb, Bool.false_eq_true, if_false, findEntry]
        exact ih hany'

theorem findEntry_append_self (s : Store) (kp : String) (e : CacheEntryQ)
    (hany : s.any (fun p => p.1 == kp) = false) :
    findEntry (s ++ [(kp, e)]) kp = some e := by
  induction s with
  | nil => simp [findEntry]
  | cons p rest ih =>
      have h1 : (p.1 == kp) = false := by
        cases hpk : (p.1 == kp)
        · rfl
        · simp [List.any_cons, hpk] at hany
      have h2 : rest.any (fun p => p.1 == kp) = false := by
        simp only [List.any_cons, h1, Bool.false_or] at hany
        exact hany
      simp only [List.cons_append, findEntry, h1, Bool.false_eq_true, if_false]
      exact ih h2

theorem findEntry_putEntry_self (s : Store) (kp : String) (e : CacheEntryQ) :
    findEntry (putEntry s kp e) kp = some e := by
  unfold putEntry
  split
  · rename_i hany
    exact findEntry_map_put_self s kp e hany
  · rename_i hany
    exact findEntry_append_self s kp e (Bool.eq_false_iff.mpr hany)

theorem findEntry_eq_of_uniqueKeys (s : Store) (hu : UniqueKeys s) (k : String)
    (e : CacheEntryQ) (hf : findEntry s k = some e) (p : String × CacheEntryQ)
    (hp : p ∈ s) (hpk : p.1 = k) : p.2 = e := by
  induction s with
  | nil => cases hp
  | cons q rest ih =>
      have hu2 : (q.1 :: rest.map Prod.fst).Nodup := by
        simpa [UniqueKeys] using hu
      obtain ⟨hnotin, hu'⟩ := List.nodup_cons.mp hu2
      rcases List.mem_cons.mp hp with rfl | hp'
      · rw [findEntry, if_pos (beq_iff_eq.mpr hpk)] at hf
        exact Option.some.inj hf
      · by_cases hqk : q.1 = k
        · exfalso
          apply hnotin
          rw [hqk, ← hpk]
          exact List.mem_map.mpr ⟨p, hp', rfl⟩
        · rw [findEntry, if_neg (by simp [beq_eq_false_iff_ne.mpr hqk])] at hf
          exact ih (by simpa [UniqueKeys] using hu') hf hp'

/-- C5: keys are unique within the store and a later `store` for the same
`text` fully overwrites the earlier entry: after storing `q1` then `q2`
with `q1.text = q2.text`, the key `q2.text` maps to the latest entry, the
store still has unique keys and text-matching keys, and every stored entry
whose query text equals `q2.text` is exactly that latest entry — so a
subsequent `search_similarity` scan can only observe the latest entry for
that text. -/
theorem store_last_write_wins (s : Store) (now1 now2 : Int) (q1 q2 : Query)
    (hu : UniqueKeys s) (ht : KeyIsText s) (heq : q1.text = q2.text) :
    findEntry (LocalCache.store (LocalCache.store s ⟨true, true, true⟩ now1 q1).2
        ⟨true, true, true⟩ now2 q2).2 q2.text = some ⟨q2, now2⟩ ∧
    UniqueKeys (LocalCache.store (LocalCache.store s ⟨true, true, true⟩ now1 q1).2
        ⟨true, true, true⟩ now2 q2).2 ∧
    KeyIsText (LocalCache.store (LocalCache.store s ⟨true, true, true⟩ now1 q1).2
        ⟨true, true, true⟩ now2 q2).2 ∧
    (∀ p ∈ (LocalCache.store (LocalCache.store s ⟨true, true, true⟩ now1 q1).2
        ⟨true, true, true⟩ now2 q2).2,
      p.2.value.text = q2.text → p = (q2.text, ⟨q2, now2⟩)) ∧
    findEntry (LocalCache.store (LocalCache.store s ⟨true, true, true⟩ now1 q1).2
        ⟨true, true, true⟩ now2 q2).2 q1.text = some ⟨q2, now2⟩ := by
  have hs1 : (LocalCache.store s ⟨true, true, true⟩ now1 q1).2 =
      putEntry s q1.text ⟨q1, now1⟩ := rfl
  have hs2 : (LocalCache.store (putEntry s q1.text ⟨q1, now1⟩)
      ⟨true, true, true⟩ now2 q2).2 =
      putEntry (putEntry s q1.text ⟨q1, now1⟩) q2.text ⟨q2, now2⟩ := rfl
  rw [hs1, hs2]
  have hu1 : UniqueKeys (putEntry s q1.text ⟨q1, now1⟩) :=
    uniqueKeys_putEntry s q1.text ⟨q1, now1⟩ hu
  have hu2 : UniqueKeys (putEntry (putEntry s q1.text ⟨q1, now1⟩) q2.text ⟨q2, now2⟩) :=
    uniqueKeys_putEntry _ q2.text ⟨q2, now2⟩ hu1
  have ht1 : KeyIsText (putEntry s q1.text ⟨q1, now1⟩) :=
    keyIsText_putEntry s ⟨q1, now1⟩ ht
  have ht2 : KeyIsText (putEntry (putEntry s q1.text ⟨q1, now1⟩) q2.text ⟨q2, now2⟩) :=
    keyIsText_putEntry _ ⟨q2, now2⟩ ht1
  have hfind : findEntry (putEntry (putEntry s q1.text ⟨q1, now1⟩) q2.text
      ⟨q2, now2⟩) q2.text = some ⟨q2, now2⟩ :=
    findEntry_putEntry_self _ q2.text ⟨q2, now2⟩
  refine ⟨hfind, hu2, ht2, ?_, by nth_rewrite 2 [heq]; exact hfind⟩
  intro p hp htext
  have hk : p.1 = q2.text := by rw [← ht2 p hp]; exact htext
  have hv : p.2 = (⟨q2, now2⟩ : CacheEntryQ) :=
    findEntry_eq_of_uniqueKeys _ hu2 q2.text ⟨q2, now2⟩ hfind p hp hk
  calc p = (p.1, p.2) := rfl
    _ = (q2.text, ⟨q2, now2⟩) := by rw [hk, hv]

/-- Closed instance of `store_last_write_wins`: two stores of queries with
the same text "t" into an empty store leave exactly the latest entry. -/
theorem store_last_write_wins_witness :
    findEntry (LocalCache.store (LocalCache.store [] ⟨true, true, true⟩ 1
        ⟨"a", "t", none, [1], .null⟩).2
        ⟨true, true, true⟩ 2 ⟨"b", "t", none, [2], .null⟩).2 "t" =
      some ⟨⟨"b", "t", none, [2], .null⟩, 2⟩ :=
  (store_last_write_wins [] 1 2 ⟨"a", "t", none, [1], .null⟩
    ⟨"b", "t", none, [2], .null⟩ (by simp [UniqueKeys])
    (by intro p hp; cases hp) rfl).1

theorem scanStore_purge_keys (ttl now : Int) (emb : List ℚ) (s : Store) :
    (scanStore ttl now emb s).2 =
      (s.filter (fun p => decide (now - p.2.created_at > ttl))).map Prod.fst := by
  induction s with
  | nil => rfl
  | cons p rest ih =>
      simp only [scanStore]
      by_cases hx : now - p.2.created_at > ttl
      · simp [hx, ih]
      · cases hs : scanEntry emb p.2 <;> simp [hx, hs, ih]

theorem mem_scanStore_results (ttl now : Int) (emb : List ℚ) (s : Store)
    (r : Query × ℚ) (hr : r ∈ (scanStore ttl now emb s).1) :
    ∃ p ∈ s, ¬(now - p.2.created_at > ttl) ∧ scanEntry emb p.2 = some r := by
  induction s with
  | nil => cases hr
  | cons p rest ih =>
      simp only [scanStore] at hr
      by_cases hx : now - p.2.created_at > ttl
      · rw [if_pos hx] at hr
        obtain ⟨p', hp', h1, h2⟩ := ih hr
        exact ⟨p', List.mem_cons_of_mem _ hp', h1, h2⟩
      · rw [if_neg hx] at hr
        cases hs : scanEntry emb p.2 with
        | none =>
            rw [hs] at hr
            obtain ⟨p', hp', h1, h2⟩ := ih hr
            exact ⟨p', List.mem_cons_of_mem _ hp', h1, h2⟩
        | some r' =>
            rw [hs] at hr
            rcases List.mem_cons.mp hr with rfl | hr'
            · exact ⟨p, List.mem_cons_self _ _, hx, hs⟩
            · obtain ⟨p', hp', h1, h2⟩ := ih hr'
              exact ⟨p', List.mem_cons_of_mem _ hp', h1, h2⟩

theorem scanStore_result_of_mem (ttl now : Int) (emb : List ℚ) (s : Store)
    (p : String × CacheEntryQ) (hp : p ∈ s)
    (hlive : ¬(now - p.2.created_at > ttl)) (r : Query × ℚ)
    (hs : scanEntry emb p.2 = some r) :
    r ∈ (scanStore ttl now emb s).1 := by
  induction s with
  | nil => cases hp
  | cons q rest ih =>
      rcases List.mem_cons.mp hp with rfl | hp'
      · simp only [scanStore, if_neg hlive, hs]
        exact List.mem_cons_self _ _
      · simp only [scanStore]
        by_cases hx : now - q.2.created_at > ttl
        · rw [if_pos hx]
          exact ih hp'
        · rw [if_neg hx]
          cases hq : scanEntry emb q.2
          · exact ih hp'
          · exact List.mem_cons_of_mem _ (ih hp')

theorem scanEntry_some_inv (emb : List ℚ) (e : CacheEntryQ) (r : Query × ℚ)
    (h : scanEntry emb e = some r) :
    0 < Rat.sqrt (dotMags e.value.embedding emb).2.1 ∧
    0 < Rat.sqrt (dotMags e.value.embedding emb).2.2 ∧
    r = (e.value, (dotMags e.value.embedding emb).1 /
      (Rat.sqrt (dotMags e.value.embedding emb).2.1 *
        Rat.sqrt (dotMags e.value.embedding emb).2.2)) := by
  simp only [scanEntry] at h
  split at h
  · rename_i hc
    exact ⟨hc.1, hc.2, (Option.some.inj h).symm⟩
  · cases h

theorem scanEntry_none_of_zero (emb : List ℚ) (e : CacheEntryQ)
    (h : (dotMags e.value.embedding emb).2.1 = 0 ∨
      (dotMags e.value.embedding emb).2.2 = 0) :
    scanEntry emb e = none := by
  rcases h with h | h <;> simp [scanEntry, h, ratSqrt_zero]

theorem scanEntry_eq_some_cosineSim (emb : List ℚ) (e : CacheEntryQ)
    (h1 : 0 < (dotMags e.value.embedding emb).2.1)
    (h2 : 0 < (dotMags e.value.embedding emb).2.2) :
    scanEntry emb e = some (e.value, cosineSim e.value.embedding emb) := by
  simp only [scanEntry]
  rw [if_pos ⟨ratSqrt_pos h1, ratSqrt_pos h2⟩]
  simp only [cosineSim, dotMags_spec]

theorem search_allOk_result (s : Store) (ttl now : Int) (emb : List ℚ) :
    (LocalCache.search_similarity s ttl now emb allOk).result =
      .ok (searchResults s ttl now emb) := by
  unfold LocalCache.search_similarity searchResults allOk
  by_cases he : (scanStore ttl now emb s).2.isEmpty <;> simp [he]

theorem search_allOk_state (s : Store) (ttl now : Int) (emb : List ℚ) :
    (LocalCache.search_similarity s ttl now emb allOk).state =
      if (scanStore ttl now emb s).2.isEmpty then s
      else s.filter (fun p => !(scanStore ttl now emb s).2.contains p.1) := by
  unfold LocalCache.search_similarity allOk
  by_cases he : (scanStore ttl now emb s).2.isEmpty <;> simp [he]

theorem search_allOk_purgeTxn (s : Store) (ttl now : Int) (emb : List ℚ) :
    (LocalCache.search_similarity s ttl now emb allOk).purgeTxnOpened =
      !(scanStore ttl now emb s).2.isEmpty := by
  unfold LocalCache.search_similarity allOk
  by_cases he : (scanStore ttl now emb s).2.isEmpty <;> simp [he]

theorem findEntry_filter_out (s : Store) (ks : List String) (k : String)
    (hk : k ∈ ks) :
    findEntry (s.filter (fun p => !ks.contains p.1)) k = none := by
  induction s with
  | nil => rfl
  | cons p rest ih =>
      by_cases hp : p.1 = k
      · have hc : ks.contains p.1 = true := by
          rw [hp]
          exact List.elem_iff.mpr hk
        simp only [List.filter_cons, hc, Bool.not_true, Bool.false_eq_true, if_false]
        exact ih
      · cases hc : ks.contains p.1
        · simp only [List.filter_cons, hc, Bool.not_false, if_true, findEntry,
            beq_eq_false_iff_ne.mpr hp, Bool.false_eq_true, if_false]
          exact ih
        · simp only [List.filter_cons, hc, Bool.not_true, Bool.false_eq_true, if_false]
          exact ih

theorem purge_mem_of_expired (ttl now : Int) (emb : List ℚ) (s : Store)
    (k : String) (e : CacheEntryQ) (hmem : (k, e) ∈ s)
    (hexp : now - e.created_at > ttl) : k ∈ (scanStore ttl now emb s).2 := by
  rw [scanStore_purge_keys]
  exact List.mem_map.mpr ⟨(k, e), List.mem_filter.mpr ⟨hmem, decide_eq_true hexp⟩, rfl⟩

theorem purge_nonempty_iff (ttl now : Int) (emb : List ℚ) (s : Store) :
    (scanStore ttl now emb s).2 ≠ [] ↔ ∃ p ∈ s, now - p.2.created_at > ttl := by
  rw [scanStore_purge_keys]
  constructor
  · intro h
    obtain ⟨x, hx⟩ := List.exists_mem_of_ne_nil _ h
    obtain ⟨p, hpf, rfl⟩ := List.mem_map.mp hx
    obtain ⟨hps, hdec⟩ := List.mem_filter.mp hpf
    exact ⟨p, hps, of_decide_eq_true hdec⟩
  · rintro ⟨p, hp, hexp⟩ hnil
    have hmem : p.1 ∈ (s.filter (fun p => decide (now - p.2.created_at > ttl))).map
        Prod.fst :=
      List.mem_map.mpr ⟨p, List.mem_filter.mpr ⟨hp, decide_eq_true hexp⟩, rfl⟩
    rw [hnil] at hmem
    cases hmem

theorem uniqueKeys_eq_of_mem (s : Store) (hu : UniqueKeys s)
    (p q : String × CacheEntryQ) (hp : p ∈ s) (hq : q ∈ s) (hk : p.1 = q.1) :
    p.2 = q.2 := by
  induction s with
  | nil => cases hp
  | cons x rest ih =>
      have hu2 : (x.1 :: rest.map Prod.fst).Nodup := by simpa [UniqueKeys] using hu
      obtain ⟨hnotin, hu'⟩ := List.nodup_cons.mp hu2
      rcases List.mem_cons.mp hp with hp1 | hp'
      · rcases List.mem_cons.mp hq with hq1 | hq'
        · rw [hp1, hq1]
        · exfalso
          apply hnotin
          have hqx : q.1 = x.1 := by rw [← hk, hp1]
          exact List.mem_map.mpr ⟨q, hq', hqx⟩
      · rcases List.mem_cons.mp hq with hq1 | hq'
        · exfalso
          apply hnotin
          have hpx : p.1 = x.1 := by rw [hk, hq1]
          exact List.mem_map.mpr ⟨p, hp', hpx⟩
        · exact ih hu' hp' hq'

/-- C3: every stored entry whose age (with `now` captured once at scan
start) strictly exceeds the TTL is excluded from the returned results and
deleted from the underlying storage before the call returns; the returned
list is the sorted outcome of the read scan over the pre-purge store (the
purge runs after the scan completes), and the separate purge write
transaction is entered exactly when at least one expired key was found. -/
theorem search_similarity_purges_expired (s : Store) (ttl now : Int)
    (emb : List ℚ) (hu : UniqueKeys s) (ht : KeyIsText s) (k : String)
    (e : CacheEntryQ) (hmem : (k, e) ∈ s) (hexp : now - e.created_at > ttl) :
    (LocalCache.search_similarity s ttl now emb allOk).result =
      .ok (searchResults s ttl now emb) ∧
    (∀ r ∈ searchResults s ttl now emb, r.1.text ≠ k) ∧
    findEntry (LocalCache.search_similarity s ttl now emb allOk).state k = none ∧
    ((LocalCache.search_similarity s ttl now emb allOk).purgeTxnOpened = true ↔
      ∃ p ∈ s, now - p.2.created_at > ttl) := by
  have hkp : k ∈ (scanStore ttl now emb s).2 :=
    purge_mem_of_expired ttl now emb s k e hmem hexp
  have hne : (scanStore ttl now emb s).2 ≠ [] := by
    intro h0
    rw [h0] at hkp
    cases hkp
  refine ⟨search_allOk_result s ttl now emb, ?_, ?_, ?_⟩
  · intro r hr hcontra
    have hr' : r ∈ (scanStore ttl now emb s).1 :=
      (List.perm_insertionSort simGE _).subset hr
    obtain ⟨p, hp, hlive, hsome⟩ := mem_scanStore_results ttl now emb s r hr'
    obtain ⟨_, _, rfl⟩ := scanEntry_some_inv emb p.2 r hsome
    have hpk : p.1 = k := by
      rw [← ht p hp]
      exact hcontra
    have hpe : p.2 = e :=
      uniqueKeys_eq_of_mem s hu p (k, e) hp hmem hpk
    rw [hpe] at hlive
    exact hlive hexp
  · rw [search_allOk_state]
    rw [if_neg (by simpa [List.isEmpty_iff] using hne)]
    exact findEntry_filter_out s _ k hkp
  · rw [search_allOk_purgeTxn]
    constructor
    · intro _
      exact (purge_nonempty_iff ttl now emb s).mp hne
    · intro _
      cases hie : (scanStore ttl now emb s).2.isEmpty
      · rfl
      · exact absurd (List.isEmpty_iff.mp hie) hne

/-- C2 (amended): `search_similarity` returns every live (non-expired)
entry whose embedding and the query embedding both have positive magnitude
over the compared prefix, paired with its cosine similarity; the returned
list is sorted by similarity descending, and the descending comparator is
total (it never fails on any pair). Live entries with a zero magnitude on
either side are excluded (see C6). -/
theorem search_similarity_sorted_complete (s : Store) (ttl now : Int)
    (emb : List ℚ) :
    (LocalCache.search_similarity s ttl now emb allOk).result =
      .ok (searchResults s ttl now emb) ∧
    List.Sorted simGE (searchResults s ttl now emb) ∧
    (∀ p ∈ s, ¬(now - p.2.created_at > ttl) →
      0 < (dotMags p.2.value.embedding emb).2.1 →
      0 < (dotMags p.2.value.embedding emb).2.2 →
      (p.2.value, cosineSim p.2.value.embedding emb) ∈ searchResults s ttl now emb) ∧
    (∀ a b : Query × ℚ, simGE a b ∨ simGE b a) := by
  refine ⟨search_allOk_result s ttl now emb, List.sorted_insertionSort simGE _,
    ?_, fun a b => le_total b.2 a.2⟩
  intro p hp hlive h1 h2
  have hs := scanEntry_eq_some_cosineSim emb p.2 h1 h2
  have hmem : (p.2.value, cosineSim p.2.value.embedding emb) ∈
      (scanStore ttl now emb s).1 :=
    scanStore_result_of_mem ttl now emb s p hp hlive _ hs
  exact (List.perm_insertionSort simGE _).symm.subset hmem

/-- C2 counterexample: a live entry with a zero embedding is not returned
at all — the result list is empty although the store holds one live
(non-expired) entry, contradicting "returns all live entries". -/
theorem search_similarity_all_live_cex :
    (LocalCache.search_similarity
        [("z", ⟨⟨"paper_search", "z", none, [0], .null⟩, 0⟩)] 5 0 [1]
        allOk).result = .ok [] ∧
    ("z", (⟨⟨"paper_search", "z", none, [0], .null⟩, 0⟩ : CacheEntryQ)) ∈
      [("z", (⟨⟨"paper_search", "z", none, [0], .null⟩, 0⟩ : CacheEntryQ))] ∧
    ¬((0 : Int) - (0 : Int) > (5 : Int)) := by
  have hzero : (dotMags [(0 : ℚ)] [(1 : ℚ)]).2.1 = 0 := by
    norm_num [dotMags]
  have hscan : scanStore 5 0 [1]
      [("z", ⟨⟨"paper_search", "z", none, [0], .null⟩, 0⟩)] = ([], []) := by
    simp only [scanStore]
    rw [if_neg (by decide)]
    rw [scanEntry_none_of_zero [1] ⟨⟨"paper_search", "z", none, [0], .null⟩, 0⟩
      (Or.inl hzero)]
  refine ⟨?_, List.mem_cons_self _ _, by decide⟩
  simp [LocalCache.search_similarity, hscan]

/-- C6: an entry whose embedding (or the query embedding) has zero
magnitude over the compared prefix is excluded from the result set
entirely — no 0-similarity row is emitted — and every returned row comes
from an entry where both magnitudes are positive, so the similarity
division's denominator is nonzero. -/
theorem search_similarity_zero_magnitude_guard (s : Store) (ttl now : Int)
    (emb : List ℚ) (hu : UniqueKeys s) (ht : KeyIsText s) (k : String)
    (e : CacheEntryQ) (hmem : (k, e) ∈ s)
    (hzero : (dotMags e.value.embedding emb).2.1 = 0 ∨
      (dotMags e.value.embedding emb).2.2 = 0) :
    (∀ r ∈ searchResults s ttl now emb, r.1.text ≠ k) ∧
    (∀ r ∈ searchResults s ttl now emb, ∃ p ∈ s,
      r.1 = p.2.value ∧
      0 < Rat.sqrt (dotMags p.2.value.embedding emb).2.1 ∧
      0 < Rat.sqrt (dotMags p.2.value.embedding emb).2.2 ∧
      Rat.sqrt (dotMags p.2.value.embedding emb).2.1 *
        Rat.sqrt (dotMags p.2.value.embedding emb).2.2 ≠ 0 ∧
      r.2 = (dotMags p.2.value.embedding emb).1 /
        (Rat.sqrt (dotMags p.2.value.embedding emb).2.1 *
          Rat.sqrt (dotMags p.2.value.embedding emb).2.2)) := by
  constructor
  · intro r hr hcontra
    have hr' : r ∈ (scanStore ttl now emb s).1 :=
      (List.perm_insertionSort simGE _).subset hr
    obtain ⟨p, hp, hplive, hsome⟩ := mem_scanStore_results ttl now emb s r hr'
    obtain ⟨hq1, hq2, rfl⟩ := scanEntry_some_inv emb p.2 r hsome
    have hpk : p.1 = k := by
      rw [← ht p hp]
      exact hcontra
    have hpe : p.2 = e := uniqueKeys_eq_of_mem s hu p (k, e) hp hmem hpk
    rw [hpe, scanEntry_none_of_zero emb e hzero] at hsome
    cases hsome
  · intro r hr
    have hr' : r ∈ (scanStore ttl now emb s).1 :=
      (List.perm_insertionSort simGE _).subset hr
    obtain ⟨p, hp, hplive, hsome⟩ := mem_scanStore_results ttl now emb s r hr'
    obtain ⟨hq1, hq2, hreq⟩ := scanEntry_some_inv emb p.2 r hsome
    exact ⟨p, hp, by rw [hreq], hq1, hq2, ne_of_gt (mul_pos hq1 hq2), by rw [hreq]⟩

/-- C7 (amended): if the purge phase of `search_similarity` fails (write
transaction open, a delete, or the commit), the call returns the storage
error to the caller instead of the collected results, and the aborted
write transaction leaves the store unchanged. -/
theorem search_similarity_purge_failure_error (s : Store) (ttl now : Int)
    (emb : List ℚ) (o : PurgeOracle)
    (hne : (scanStore ttl now emb s).2 ≠ [])
    (hfail : o.txnOk = false ∨
      (∃ k ∈ (scanStore ttl now emb s).2, o.deleteOk k = false) ∨
      o.commitOk = false) :
    (LocalCache.search_similarity s ttl now emb o).result = .error () ∧
    (LocalCache.search_similarity s ttl now emb o).state = s := by
  have hie : (scanStore ttl now emb s).2.isEmpty = false := by
    cases h : (scanStore ttl now emb s).2.isEmpty
    · rfl
    · exact absurd (List.isEmpty_iff.mp h) hne
  obtain ⟨t, d, c⟩ := o
  cases t
  · simp [LocalCache.search_similarity, hie]
  · rcases hfail with hf | hf | hf
    · cases hf
    · have hany : (scanStore ttl now emb s).2.any (fun k => !d k) = true := by
        obtain ⟨k, hk, hdk⟩ := hf
        exact List.any_eq_true.mpr ⟨k, hk, by simp only [Bool.not_eq_true']; exact hdk⟩
      simp [LocalCache.search_similarity, hie, hany]
    · subst hf
      cases hany : (scanStore ttl now emb s).2.any (fun k => !d k) <;>
        simp [LocalCache.search_similarity, hie, hany]

/-- C7 counterexample: with one expired entry and a purge commit that
fails, `search_similarity` returns the error — it does not return the
collected results to the caller. -/
theorem search_similarity_purge_failure_cex :
    (LocalCache.search_similarity
        [("old", ⟨⟨"paper_search", "old", none, [1], .null⟩, 0⟩)] 5 10 [1]
        ⟨true, fun _ => true, false⟩).result = .error () ∧
    (scanStore 5 10 [1]
        [("old", ⟨⟨"paper_search", "old", none, [1], .null⟩, 0⟩)]).2 =
      ["old"] := by
  have hscan : scanStore 5 10 [1]
      [("old", ⟨⟨"paper_search", "old", none, [1], .null⟩, 0⟩)] = ([], ["old"]) := by
    simp only [scanStore]
    rw [if_pos (by decide)]
  constructor
  · simp [LocalCache.search_similarity, hscan]
  · rw [hscan]

/-- Closed instance of `search_similarity_purges_expired`: in a store with
an expired entry under "old" and a live entry under "new", the purge
deletes "old" from storage. -/
theorem search_similarity_purges_expired_witness :
    findEntry (LocalCache.search_similarity
        [("old", ⟨⟨"paper_details", "old", none, [1], .null⟩, 0⟩),
          ("new", ⟨⟨"paper_details", "new", none, [1], .null⟩, 8⟩)] 5 10 [1]
        allOk).state "old" = none :=
  (search_similarity_purges_expired
    [("old", ⟨⟨"paper_details", "old", none, [1], .null⟩, 0⟩),
      ("new", ⟨⟨"paper_details", "new", none, [1], .null⟩, 8⟩)] 5 10 [1]
    (by unfold UniqueKeys; decide) (by unfold KeyIsText; decide) "old"
    ⟨⟨"paper_details", "old", none, [1], .null⟩, 0⟩
    (List.Mem.head _) (by decide)).2.2.1

/-- Closed instance of `search_similarity_sorted_complete`: a live entry
with unit embedding appears in the returned list, which is sorted. -/
theorem search_similarity_sorted_complete_witness :
    ((⟨"paper_details", "x", none, [1], .null⟩ : Query), cosineSim [1] [1]) ∈
      searchResults [("x", ⟨⟨"paper_details", "x", none, [1], .null⟩, 0⟩)] 5 0 [1] ∧
    List.Sorted simGE
      (searchResults [("x", ⟨⟨"paper_details", "x", none, [1], .null⟩, 0⟩)] 5 0 [1]) :=
  ⟨(search_similarity_sorted_complete
      [("x", ⟨⟨"paper_details", "x", none, [1], .null⟩, 0⟩)] 5 0 [1]).2.2.1
      ("x", ⟨⟨"paper_details", "x", none, [1], .null⟩, 0⟩) (List.Mem.head _)
      (by decide) (by norm_num [dotMags]) (by norm_num [dotMags]),
    (search_similarity_sorted_complete
      [("x", ⟨⟨"paper_details", "x", none, [1], .null⟩, 0⟩)] 5 0 [1]).2.1⟩

/-- Closed instance of `search_similarity_zero_magnitude_guard`: with a
zero-embedding live entry under "z" and a unit-embedding entry under "x",
the returned row for "x" does not carry the text "z". -/
theorem search_similarity_zero_magnitude_guard_witness :
    ((⟨"paper_details", "x", none, [1], .null⟩ : Query),
      cosineSim [1] [1]).1.text ≠ "z" :=
  (search_similarity_zero_magnitude_guard
    [("z", ⟨⟨"paper_details", "z", none, [0], .null⟩, 0⟩),
      ("x", ⟨⟨"paper_details", "x", none, [1], .null⟩, 0⟩)] 5 0 [1]
    (by unfold UniqueKeys; decide) (by unfold KeyIsText; decide) "z"
    ⟨⟨"paper_details", "z", none, [0], .null⟩, 0⟩
    (List.Mem.head _) (Or.inl (by norm_num [dotMags]))).1
    ((⟨"paper_details", "x", none, [1], .null⟩ : Query), cosineSim [1] [1])
    ((List.perm_insertionSort simGE _).symm.subset
      (scanStore_result_of_mem 5 0 [1]
        [("z", ⟨⟨"paper_details", "z", none, [0], .null⟩, 0⟩),
          ("x", ⟨⟨"paper_details", "x", none, [1], .null⟩, 0⟩)]
        ("x", ⟨⟨"paper_details", "x", none, [1], .null⟩, 0⟩)
        (List.mem_cons_of_mem _ (List.Mem.head _)) (by decide) _
        (scanEntry_eq_some_cosineSim [1] ⟨⟨"paper_details", "x", none, [1], .null⟩, 0⟩
          (by norm_num [dotMags]) (by norm_num [dotMags]))))

/-- Closed instance of `search_similarity_purge_failure_error`: one
expired entry and a write-transaction open failure yield the error and an
unchanged store. -/
theorem search_similarity_purge_failure_error_witness :
    (LocalCache.search_similarity
        [("stale", ⟨⟨"paper_details", "stale", none, [1], .null⟩, 0⟩)] 5 10 [1]
        ⟨false, fun _ => true, true⟩).result = .error () ∧
    (LocalCache.search_similarity
        [("stale", ⟨⟨"paper_details", "stale", none, [1], .null⟩, 0⟩)] 5 10 [1]
        ⟨false, fun _ => true, true⟩).state =
      [("stale", ⟨⟨"paper_details", "stale", none, [1], .null⟩, 0⟩)] :=
  search_similarity_purge_failure_error
    [("stale", ⟨⟨"paper_details", "stale", none, [1], .null⟩, 0⟩)] 5 10 [1]
    ⟨false, fun _ => true, true⟩
    ((purge_nonempty_iff 5 10 [1] _).mpr
      ⟨("stale", ⟨⟨"paper_details", "stale", none, [1], .null⟩, 0⟩),
        List.Mem.head _, by decide⟩)
    (Or.inl rfl)
